import Mathlib

/-!
Verification of the epub-cleaning Telegram bot (src/bot.js, src/cleaners.js,
src/unnamed/part_001).  The JavaScript sources are shallowly embedded below:
strings become Lean strings, DOM documents become a tree type, the per-user
job queue becomes a labelled transition system, and the pipeline stages become
pure functions.  Theorems at the end settle the spec claims.
-/

namespace EpubBot

/-! ## String primitives

Embeddings of the JavaScript string operations the bot uses:
`String.prototype.replaceAll` with a string pattern (the pattern matched
as a literal substring, all occurrences, left to right, non-overlapping;
the replacement string subject to GetSubstitution), `trim`, and the
global regex replacements that appear with fixed regex literals in
cleaners.js.
-/

/-- JavaScript whitespace characters (the `\s` class / `trim`):
space, tab, LF, VT, FF, CR, NBSP, line and paragraph separators, BOM. -/
def isJsWhite (c : Char) : Bool :=
  c.toNat = 32 || c.toNat = 9 || c.toNat = 10 || c.toNat = 11 ||
  c.toNat = 12 || c.toNat = 13 || c.toNat = 160 || c.toNat = 0x2028 ||
  c.toNat = 0x2029 || c.toNat = 0xfeff

/-- JavaScript `String.prototype.trim`. -/
def jsTrim (s : String) : String :=
  ⟨((s.data.dropWhile isJsWhite).reverse.dropWhile isJsWhite).reverse⟩

/-- ECMAScript GetSubstitution for a string replacement with no capture
groups (the case of `replaceAll` with a string pattern, and of `replace`
with a capture-free regex): in the replacement template, `$$` yields `$`,
`$&` the matched text, `$` + backquote the part of the subject before the
match, `$` + apostrophe the part after it; any other `$` is literal.
`matched`, `before` and `after` are those three slices of the subject. -/
def getSubstitution (matched before after : List Char) : List Char → List Char
  | [] => []
  | c :: rest =>
    if c = '$' then
      match rest with
      | [] => [c]
      | d :: rest2 =>
        if d = '$' then '$' :: getSubstitution matched before after rest2
        else if d = '&' then matched ++ getSubstitution matched before after rest2
        else if d.toNat = 96 then before ++ getSubstitution matched before after rest2
        else if d.toNat = 39 then after ++ getSubstitution matched before after rest2
        else c :: getSubstitution matched before after (d :: rest2)
    else c :: getSubstitution matched before after rest

/-- Core of `replaceAll` for a non-empty string pattern: scan left to
right over the subject, replacing each (non-overlapping) occurrence of
`pat` by the GetSubstitution expansion of `rep`.  `orig` is the whole
subject and `pos` the absolute position of the remaining suffix, needed
for the before/after slices.  The fuel argument only serves structural
termination; every step consumes at least one character, so fuel equal to
the subject length is always enough. -/
def replaceAllAux (pat rep orig : List Char) : Nat → Nat → List Char → List Char
  | _, _, [] => []
  | 0, _, s => s
  | fuel + 1, pos, c :: cs =>
    if pat ≠ [] ∧ pat.isPrefixOf (c :: cs) then
      getSubstitution pat (orig.take pos) (orig.drop (pos + pat.length)) rep ++
        replaceAllAux pat rep orig fuel (pos + pat.length) ((c :: cs).drop pat.length)
    else
      c :: replaceAllAux pat rep orig fuel (pos + 1) cs

/-- Behaviour of `replaceAll` with the empty-string pattern: JavaScript
matches the empty string at every position, including both ends, and
substitutes the replacement there (with empty matched text). -/
def replaceAllEmptyPat (rep orig : List Char) : Nat → List Char → List Char
  | pos, [] => getSubstitution [] (orig.take pos) (orig.drop pos) rep
  | pos, c :: cs =>
    getSubstitution [] (orig.take pos) (orig.drop pos) rep ++
      c :: replaceAllEmptyPat rep orig (pos + 1) cs

/-- JavaScript `s.replaceAll(pat, rep)` with a string pattern: the pattern
is matched as a literal substring; the replacement undergoes
GetSubstitution. -/
def jsReplaceAll (s pat rep : String) : String :=
  if pat.data = [] then ⟨replaceAllEmptyPat rep.data s.data 0 s.data⟩
  else ⟨replaceAllAux pat.data rep.data s.data s.data.length 0 s.data⟩

/-- The closing double quotes matched by the cleaners.js regex literal
`/\.["”]/g` after a period. -/
def isCloseQuote (c : Char) : Bool :=
  c = '"' || c = '”'

/-- The quote characters of the cleaners.js regex literal `/["'“”‘’«»]/g`. -/
def isQuoteChar (c : Char) : Bool :=
  c = '"' || c.toNat = 39 || c = '“' || c = '”' || c = '‘' || c = '’' ||
  c = '«' || c = '»'

/-- Embedding of `newText.replace(/\.["”]/g, ' —')`: every period immediately followed by
a closing double quote becomes a space plus an em dash. -/
def periodQuoteAux : List Char → List Char
  | [] => []
  | '.' :: c :: rest =>
    if isCloseQuote c then ' ' :: '—' :: periodQuoteAux rest
    else '.' :: periodQuoteAux (c :: rest)
  | c :: rest => c :: periodQuoteAux rest

def replacePeriodQuote (s : String) : String :=
  ⟨periodQuoteAux s.data⟩

/-- Embedding of `newText.replace(/["'“”‘’«»]/g, '—')`: every remaining quote character
becomes an em dash. -/
def replaceQuotes (s : String) : String :=
  ⟨s.data.map (fun c => if isQuoteChar c then '—' else c)⟩

/-- Embedding of `newText.replace(/ +/g, ' ')`: collapse every run of spaces to one. -/
def collapseSpacesAux : List Char → List Char
  | [] => []
  | [c] => [c]
  | c1 :: c2 :: rest =>
    if c1 = ' ' ∧ c2 = ' ' then collapseSpacesAux (c2 :: rest)
    else c1 :: collapseSpacesAux (c2 :: rest)

def collapseSpaces (s : String) : String :=
  ⟨collapseSpacesAux s.data⟩

/-- Embedding of `content.replace(/<[^>]+>/g, ' ')`: each `<`, followed by at least one
non-`>` character, up to the first `>`, is replaced by one space.  A `<`
with no such closing `>` is kept verbatim. -/
def removeTagsAux : Nat → List Char → List Char
  | _, [] => []
  | 0, s => s
  | fuel + 1, c :: rest =>
    if c = '<' then
      match rest.dropWhile (fun d => d ≠ '>') with
      | [] => c :: removeTagsAux fuel rest
      | _ :: tail =>
        if rest.takeWhile (fun d => d ≠ '>') = [] then c :: removeTagsAux fuel rest
        else ' ' :: removeTagsAux fuel tail
    else c :: removeTagsAux fuel rest

/-- Embedding of `.replace(/\s+/g, ' ')`: collapse every whitespace run to one space. -/
def collapseWsAux : List Char → List Char
  | [] => []
  | [c] => if isJsWhite c then [' '] else [c]
  | c1 :: c2 :: rest =>
    if isJsWhite c1 then
      if isJsWhite c2 then collapseWsAux (c2 :: rest)
      else ' ' :: collapseWsAux (c2 :: rest)
    else c1 :: collapseWsAux (c2 :: rest)

/-- The HTML-tag stripping used for language sampling
(`content.replace(/<[^>]+>/g, ' ').replace(/\s+/g, ' ')`). -/
def stripHtml (s : String) : String :=
  ⟨collapseWsAux (removeTagsAux s.data.length s.data)⟩

/-! A minimal model of `new RegExp(pattern, 'g')` as used by the legacy
bot.js text rewriter on user-supplied rule text.  It covers exactly the
patterns whose characters are either the metacharacter `.` (match any
character) or literal characters — enough to exhibit the difference
between pattern replacement and literal replacement. -/

/-- One token of a compiled dot-or-literal pattern. -/
inductive RTok where
  | dot : RTok
  | lit : Char → RTok
deriving DecidableEq

/-- Compile a pattern containing no metacharacter other than `.`. -/
def compileDotPattern (p : String) : List RTok :=
  p.data.map (fun c => if c = '.' then RTok.dot else RTok.lit c)

/-- JavaScript line terminators, which `/./` does not match. -/
def isLineTerminator (c : Char) : Bool :=
  c.toNat = 10 || c.toNat = 13 || c.toNat = 0x2028 || c.toNat = 0x2029

def rtokMatches : RTok → Char → Bool
  | RTok.dot, d => !isLineTerminator d
  | RTok.lit c, d => c = d

/-- Does the token list match a prefix of `s` (each token matches one char)? -/
def rtoksPrefix : List RTok → List Char → Bool
  | [], _ => true
  | _ :: _, [] => false
  | t :: ts, c :: cs => rtokMatches t c && rtoksPrefix ts cs

/-- Global regex replacement for a non-empty dot-or-literal pattern:
scan left to right, replacing each match (of length = pattern length) by
the GetSubstitution expansion of `rep` (these patterns have no capture
groups).  `orig`/`pos` as in `replaceAllAux`. -/
def regexReplaceAllAux (ts : List RTok) (rep orig : List Char) : Nat → Nat → List Char → List Char
  | _, _, [] => []
  | 0, _, s => s
  | fuel + 1, pos, c :: cs =>
    if ts ≠ [] ∧ rtoksPrefix ts (c :: cs) then
      getSubstitution ((c :: cs).take ts.length) (orig.take pos) (orig.drop (pos + ts.length))
          rep ++
        regexReplaceAllAux ts rep orig fuel (pos + ts.length) ((c :: cs).drop ts.length)
    else
      c :: regexReplaceAllAux ts rep orig fuel (pos + 1) cs

/-- JavaScript `s.replace(new RegExp(pat, 'g'), rep)` for dot-or-literal patterns. -/
def jsRegexReplaceAll (s pat rep : String) : String :=
  if pat.data = [] then ⟨replaceAllEmptyPat rep.data s.data 0 s.data⟩
  else ⟨regexReplaceAllAux (compileDotPattern pat) rep.data s.data s.data.length 0 s.data⟩

/-- Does `pat` occur as a contiguous substring of the char list? -/
def hasSubstr (pat : List Char) : List Char → Bool
  | [] => pat.isPrefixOf []
  | c :: cs => pat.isPrefixOf (c :: cs) || hasSubstr pat cs

/-- JavaScript `s.includes(pat)`: substring containment. -/
def jsIncludes (s pat : String) : Bool :=
  hasSubstr pat.data s.data

/-- JavaScript `s.endsWith(suffix)`. -/
def jsEndsWith (s suffix : String) : Bool :=
  suffix.data.reverse.isPrefixOf s.data.reverse

/-- JavaScript `s.startsWith(p)`. -/
def jsStartsWith (s p : String) : Bool :=
  p.data.isPrefixOf s.data

/-- JavaScript `s.toLowerCase()` (character-wise). -/
def jsToLower (s : String) : String :=
  ⟨s.data.map Char.toLower⟩

/-! ## DOM model

A parsed markup entry (jsdom `DOMParser` output) is modelled as a tree of
element and text nodes.  A `Doc` is the document: its root element, or
`none` when there is no document element. -/

inductive XNode where
  | elem (tag : String) (attrs : List (String × String)) (children : List XNode)
  | text (value : String)

/-- A document: `doc.documentElement`, if present. -/
abbrev Doc := Option XNode

-- node.textContent: concatenation of all descendant text values.
mutual

def textContent : XNode → String
  | XNode.text s => s
  | XNode.elem _ _ cs => textContentList cs

def textContentList : List XNode → String
  | [] => ""
  | n :: ns => textContent n ++ textContentList ns

end

def isElemNode : XNode → Bool
  | XNode.elem _ _ _ => true
  | XNode.text _ => false

def getAttr (attrs : List (String × String)) (k : String) : Option String :=
  (attrs.find? (fun p => p.1 = k)).map (fun p => p.2)

/-! ### cleanImages (src/cleaners.js lines 8-17)

`doc.querySelectorAll('img')` and `doc.querySelectorAll('image')` over an
XML document match those tag names exactly; all matches are removed. -/

def isImageTag (t : String) : Bool := t = "img" || t = "image"

mutual

def hasImageNode : XNode → Bool
  | XNode.text _ => false
  | XNode.elem t _ cs => isImageTag t || hasImageList cs

def hasImageList : List XNode → Bool
  | [] => false
  | n :: ns => hasImageNode n || hasImageList ns

end

mutual

def stripImagesNode : XNode → Option XNode
  | XNode.text s => some (XNode.text s)
  | XNode.elem t a cs =>
    if isImageTag t then none else some (XNode.elem t a (stripImagesList cs))

def stripImagesList : List XNode → List XNode
  | [] => []
  | n :: ns =>
    match stripImagesNode n with
    | none => stripImagesList ns
    | some m => m :: stripImagesList ns

end

def docHasImage : Doc → Bool
  | none => false
  | some r => hasImageNode r

/-- Embedding of `cleanImages(doc)`: if no `img`/`image` element is present, return
`false` and leave the document untouched; otherwise remove them all and
return `true`. -/
def cleanImages (d : Doc) : Doc × Bool :=
  match d with
  | none => (none, false)
  | some r => if hasImageNode r then (stripImagesNode r, true) else (some r, false)

/-! ### cleanStyles (src/cleaners.js lines 24-31) -/

def hasStyleAttr (a : List (String × String)) : Bool := a.any (fun p => p.1 = "style")

mutual

def anyStyledNode : XNode → Bool
  | XNode.text _ => false
  | XNode.elem _ a cs => hasStyleAttr a || anyStyledList cs

def anyStyledList : List XNode → Bool
  | [] => false
  | n :: ns => anyStyledNode n || anyStyledList ns

end

mutual

def stripStylesNode : XNode → XNode
  | XNode.text s => XNode.text s
  | XNode.elem t a cs =>
    XNode.elem t (a.filter (fun p => p.1 ≠ "style")) (stripStylesList cs)

def stripStylesList : List XNode → List XNode
  | [] => []
  | n :: ns => stripStylesNode n :: stripStylesList ns

end

/-- Embedding of `cleanStyles(doc)`: drop the inline `style` attribute from every
element; return whether any element had one. -/
def cleanStyles (d : Doc) : Doc × Bool :=
  match d with
  | none => (none, false)
  | some r => if anyStyledNode r then (some (stripStylesNode r), true) else (some r, false)

/-! ### cleanEmptyParagraphs (src/cleaners.js lines 38-47)

A `<p>` is removed iff its trimmed `textContent` is empty and it has no
element child (`firstElementChild === null`).  The qualifying set is
computed on the tree before any removal. -/

def isRemovableP : XNode → Bool
  | XNode.text _ => false
  | XNode.elem t _ cs =>
    t = "p" && jsTrim (textContentList cs) = "" && !(cs.any isElemNode)

mutual

def prunePNode : XNode → Option XNode
  | XNode.text s => some (XNode.text s)
  | XNode.elem t a cs =>
    if isRemovableP (XNode.elem t a cs) then none
    else some (XNode.elem t a (prunePList cs))

def prunePList : List XNode → List XNode
  | [] => []
  | n :: ns =>
    match prunePNode n with
    | none => prunePList ns
    | some m => m :: prunePList ns

end

mutual

def anyRemovablePNode : XNode → Bool
  | XNode.text _ => false
  | XNode.elem t a cs =>
    isRemovableP (XNode.elem t a cs) || anyRemovablePList cs

def anyRemovablePList : List XNode → Bool
  | [] => false
  | n :: ns => anyRemovablePNode n || anyRemovablePList ns

end

/-- Embedding of `cleanEmptyParagraphs(doc)`. -/
def cleanEmptyParagraphs (d : Doc) : Doc × Bool :=
  match d with
  | none => (none, false)
  | some r => if anyRemovablePNode r then (prunePNode r, true) else (some r, false)

/-! ### cleanHyperlinks (src/cleaners.js lines 54-61)

Every `<a>` element is replaced by a text node holding its
`textContent || ''`; outermost links first (matching the behaviour of
removing a static `querySelectorAll` list in document order). -/

mutual

def anyLinkNode : XNode → Bool
  | XNode.text _ => false
  | XNode.elem t _ cs => t = "a" || anyLinkList cs

def anyLinkList : List XNode → Bool
  | [] => false
  | n :: ns => anyLinkNode n || anyLinkList ns

end

mutual

def unwrapLinksNode : XNode → XNode
  | XNode.text s => XNode.text s
  | XNode.elem t a cs =>
    if t = "a" then XNode.text (textContentList cs)
    else XNode.elem t a (unwrapLinksList cs)

def unwrapLinksList : List XNode → List XNode
  | [] => []
  | n :: ns => unwrapLinksNode n :: unwrapLinksList ns

end

/-- Embedding of `cleanHyperlinks(doc)`. -/
def cleanHyperlinks (d : Doc) : Doc × Bool :=
  match d with
  | none => (none, false)
  | some r => if anyLinkNode r then (some (unwrapLinksNode r), true) else (some r, false)

/-! ### cleanFootnotes (src/cleaners.js lines 68-81) -/

def isNoteRef : XNode → Bool
  | XNode.text _ => false
  | XNode.elem _ a _ => getAttr a "epub:type" = some "noteref"

def isFootnoteElem : XNode → Bool
  | XNode.text _ => false
  | XNode.elem _ a _ =>
    getAttr a "epub:type" = some "footnote" || getAttr a "epub:type" = some "endnote"

mutual

def anyFootnoteNode : XNode → Bool
  | XNode.text _ => false
  | XNode.elem t a cs =>
    isNoteRef (XNode.elem t a cs) || isFootnoteElem (XNode.elem t a cs) ||
      anyFootnoteList cs

def anyFootnoteList : List XNode → Bool
  | [] => false
  | n :: ns => anyFootnoteNode n || anyFootnoteList ns

end

mutual

def stripFootnotesNode : XNode → Option XNode
  | XNode.text s => some (XNode.text s)
  | XNode.elem t a cs =>
    if isNoteRef (XNode.elem t a cs) || isFootnoteElem (XNode.elem t a cs) then none
    else some (XNode.elem t a (stripFootnotesList cs))

def stripFootnotesList : List XNode → List XNode
  | [] => []
  | n :: ns =>
    match stripFootnotesNode n with
    | none => stripFootnotesList ns
    | some m => m :: stripFootnotesList ns

end

/-- Embedding of `cleanFootnotes(doc)`. -/
def cleanFootnotes (d : Doc) : Doc × Bool :=
  match d with
  | none => (none, false)
  | some r =>
    if anyFootnoteNode r then (stripFootnotesNode r, true) else (some r, false)

/-! ### cleanTextNodes (src/cleaners.js lines 90-152)

The TreeWalker visits every text node under `doc.documentElement` (the
transform is skipped when there is no document element, and a text node
with empty `nodeValue` is skipped).  Each visited value goes through, in
order: watermark removal, punctuation fixing, space collapsing, and the
replacement rules (single-use rules first, then the rules of every active
dictionary, in list order). -/

structure Rule where
  original : String
  replacement : String
deriving DecidableEq

structure TextOptions where
  removeGoogle : Bool
  fixPunctuation : Bool
  fixSpacing : Bool
  singleUseReplacements : List Rule
  userDictionaries : List (String × List Rule)
  activeDictionaries : List String

/-- The configured watermark phrases (cleaners.js lines 97-100). -/
def watermarks : List String :=
  ["Machine Translated by Google", "OceanoPDF.com"]

/-- Watermark removal (cleaners.js lines 119-126): for each watermark in
order, if the text contains it, remove all its occurrences. -/
def watermarkStage (s : String) : String :=
  watermarks.foldl (fun acc w => if jsIncludes acc w then jsReplaceAll acc w "" else acc) s

/-- Punctuation fixing (cleaners.js line 128): period-plus-closing-quote
becomes space-plus-em-dash, then every remaining quote becomes an em dash. -/
def punctuationStage (s : String) : String :=
  replaceQuotes (replacePeriodQuote s)

/-- Rule collection (cleaners.js lines 105-112): single-use rules, then
the rules of each active dictionary that exists, in order. -/
def allReplacements (o : TextOptions) : List Rule :=
  o.activeDictionaries.foldl
    (fun acc d =>
      match o.userDictionaries.find? (fun p => p.1 = d) with
      | some p => acc ++ p.2
      | none => acc)
    o.singleUseReplacements

/-- Rule application (cleaners.js lines 136-144): literal `replaceAll`
of each rule over the text, in list order. -/
def applyRules (rules : List Rule) (s : String) : String :=
  rules.foldl (fun acc r => jsReplaceAll acc r.original r.replacement) s

/-- Stages (a)-(c) of the per-node rewrite, before the replacement rules. -/
def preRuleStages (o : TextOptions) (s : String) : String :=
  let s1 := if o.removeGoogle then watermarkStage s else s
  let s2 := if o.fixPunctuation then punctuationStage s1 else s1
  if o.fixSpacing && jsIncludes s2 "  " then collapseSpaces s2 else s2

/-- Full per-text-node rewrite of cleaners.js `cleanTextNodes`. -/
def rewriteText (o : TextOptions) (s : String) : String :=
  applyRules (allReplacements o) (preRuleStages o s)

mutual

def rewriteNode (o : TextOptions) : XNode → XNode
  | XNode.text s => if s = "" then XNode.text s else XNode.text (rewriteText o s)
  | XNode.elem t a cs => XNode.elem t a (rewriteList o cs)

def rewriteList (o : TextOptions) : List XNode → List XNode
  | [] => []
  | n :: ns => rewriteNode o n :: rewriteList o ns

end

mutual

def anyTextChangedNode (o : TextOptions) : XNode → Bool
  | XNode.text s => !(s = "") && !(rewriteText o s = s)
  | XNode.elem _ _ cs => anyTextChangedList o cs

def anyTextChangedList (o : TextOptions) : List XNode → Bool
  | [] => false
  | n :: ns => anyTextChangedNode o n || anyTextChangedList o ns

end

/-- Embedding of `cleanTextNodes(doc, options, window)`. -/
def cleanTextNodes (o : TextOptions) (d : Doc) : Doc × Bool :=
  match d with
  | none => (none, false)
  | some r => (some (rewriteNode o r), anyTextChangedNode o r)

-- All text node values under a node, in document (pre-order) order.
mutual

def textValuesNode : XNode → List String
  | XNode.text s => [s]
  | XNode.elem _ _ cs => textValuesList cs

def textValuesList : List XNode → List String
  | [] => []
  | n :: ns => textValuesNode n ++ textValuesList ns

end

/-! ### Legacy rewriter (src/bot.js lines 650-700)

The standalone bot.js variant of `cleanTextNodes` applies each single-use
rule with `newText.replace(new RegExp(rule.original, 'g'), rule.replacement)`
— the rule text is compiled as a regex pattern, not treated literally. -/

structure BotTextOptions where
  removeGoogle : Bool
  fixPunctuation : Bool
  fixSpacing : Bool
  singleUseReplacements : List Rule

/-- Rule application in bot.js (lines 687-692): each rule is a regex. -/
def applyRulesBot (rules : List Rule) (s : String) : String :=
  rules.foldl (fun acc r => jsRegexReplaceAll acc r.original r.replacement) s

/-- Per-text-node rewrite of the legacy bot.js `cleanTextNodes`. -/
def rewriteTextBot (o : BotTextOptions) (s : String) : String :=
  let s1 := if o.removeGoogle then watermarkStage s else s
  let s2 := if o.fixPunctuation then punctuationStage s1 else s1
  let s3 := if o.fixSpacing && jsIncludes s2 "  " then collapseSpaces s2 else s2
  applyRulesBot o.singleUseReplacements s3

/-! ## Pipeline entry processing (src/unnamed/part_001, processEpubBuffer)

Per markup entry (lines 1349-1404): parse; on success run the transform
set and write the serialized document back when anything changed; a parse
failure is caught, the entry is left untouched and its name is recorded
in the warning list.  All other entries continue to be processed. -/

structure Entry where
  name : String
  content : String
deriving DecidableEq

/-- Transform-relevant job options (the frozen snapshot carried by a job). -/
structure JobOptions where
  removeImages : Bool
  removeStyles : Bool
  removeEmptyP : Bool
  removeHyperlinks : Bool
  removeFootnotes : Bool
  removeGoogle : Bool
  fixPunctuation : Bool
  fixSpacing : Bool
  singleUseReplacements : List Rule
  userDictionaries : List (String × List Rule)
  activeDictionaries : List String

/-- The `textOptions` object built at lines 1367-1375. -/
def textOptionsOf (o : JobOptions) : TextOptions :=
  { removeGoogle := o.removeGoogle
    fixPunctuation := o.fixPunctuation
    fixSpacing := o.fixSpacing
    singleUseReplacements := o.singleUseReplacements
    userDictionaries := o.userDictionaries
    activeDictionaries := o.activeDictionaries }

/-- The per-entry transform chain (lines 1357-1379).  Each cleaner runs
only when its option is set; `cleanTextNodes` always runs; the final
per-entry `translateDocument` of part_001 (line 1199) returns `false`
without touching the tree, so it contributes nothing here. -/
def applyTransforms (o : JobOptions) (d : Doc) : Doc × Bool :=
  let r1 := if o.removeImages then cleanImages d else (d, false)
  let r2 := if o.removeStyles then cleanStyles r1.1 else (r1.1, false)
  let r3 := if o.removeEmptyP then cleanEmptyParagraphs r2.1 else (r2.1, false)
  let r4 := if o.removeHyperlinks then cleanHyperlinks r3.1 else (r3.1, false)
  let r5 := if o.removeFootnotes then cleanFootnotes r4.1 else (r4.1, false)
  let r6 := cleanTextNodes (textOptionsOf o) r5.1
  (r6.1, r1.2 || r2.2 || r3.2 || r4.2 || r5.2 || r6.2)

/-- Minimal XML escaping of text data for serialization. -/
def escapeXml (s : String) : String :=
  ⟨s.data.foldr
    (fun c acc =>
      if c = '&' then '&' :: 'a' :: 'm' :: 'p' :: ';' :: acc
      else if c = '<' then '&' :: 'l' :: 't' :: ';' :: acc
      else if c = '>' then '&' :: 'g' :: 't' :: ';' :: acc
      else c :: acc)
    []⟩

-- Serializer standing in for XMLSerializer.serializeToString.
mutual

def renderNode : XNode → String
  | XNode.text s => escapeXml s
  | XNode.elem t a cs =>
    "<" ++ t ++
      String.join (a.map (fun p => " " ++ p.1 ++ "=" ++ "\"" ++ p.2 ++ "\"")) ++
      ">" ++ renderList cs ++ "</" ++ t ++ ">"

def renderList : List XNode → String
  | [] => ""
  | n :: ns => renderNode n ++ renderList ns

end

def renderDoc : Doc → String
  | none => ""
  | some r => renderNode r

/-- One markup entry of the fan-out (lines 1351-1402): parse failures are
caught, leaving the entry untouched and producing its name as a warning;
otherwise the transformed document is written back iff anything changed. -/
def processTextEntry (parse : String → Option XNode) (o : JobOptions) (e : Entry) :
    Entry × Option String :=
  match parse e.content with
  | none => (e, some e.name)
  | some root =>
    let r := applyTransforms o (some root)
    (if r.2 then { e with content := renderDoc r.1 } else e, none)

/-- The whole markup fan-out over a list of markup entries, returning the
new entries and the collected parse-failure warnings (`parsingErrors`). -/
def processTextEntries (parse : String → Option XNode) (o : JobOptions)
    (entries : List Entry) : List Entry × List String :=
  (entries.map (fun e => (processTextEntry parse o e).1),
   entries.filterMap (fun e => (processTextEntry parse o e).2))

/-- The markup phase of `processEpubBuffer` never propagates a per-entry
parse failure: every such exception is caught inside the entry's own
async closure (lines 1396-1401), so the phase always completes and the
job goes on to repackaging. -/
def processEpubTextPhase (parse : String → Option XNode) (o : JobOptions)
    (entries : List Entry) : Except String (List Entry × List String) :=
  Except.ok (processTextEntries parse o entries)

/-! ## Language classifier (src/unnamed/part_001)

`detectLanguageFromContent` (lines 1225-1250) samples stripped text from
at most 5 `.html`/`.xhtml` entries, stopping once more than 5000
characters are collected, and feeds the sample to the statistical
identifier (`franc`, an external collaborator, taken as a parameter).
The decision logic of `processEpubBuffer` (lines 1284-1308) combines the
user's translate option with the metadata language and that detection. -/

def isHtmlName (n : String) : Bool :=
  jsEndsWith (jsToLower n) ".html" || jsEndsWith (jsToLower n) ".xhtml"

def buildSampleAux : List String → String → String
  | [], acc => acc
  | c :: cs, acc =>
    let acc' := acc ++ stripHtml c ++ " "
    if acc'.length > 5000 then acc' else buildSampleAux cs acc'

/-- The sample text accumulated by the loop at lines 1230-1241. -/
def buildSample (files : List Entry) : String :=
  buildSampleAux (((files.filter (fun e => isHtmlName e.name)).take 5).map (fun e => e.content)) ""

/-- Embedding of `detectLanguageFromContent(zip)` with the statistical
identifier as a parameter: `none` when no non-blank sample was obtained. -/
def detectLanguageFromContent (files : List Entry) (identify : String → String) :
    Option String :=
  let s := buildSample files
  if jsTrim s ≠ "" then some (identify s) else none

/-- Truthiness test at line 1293: `lang && lang.toLowerCase().startsWith('es')`. -/
def metaLangIsSpanish : Option String → Bool
  | none => false
  | some l => !(l = "") && jsStartsWith (jsToLower l) "es"

/-- The `shouldTranslate` computation of lines 1284-1308, with the
declared metadata language (result of `getLanguageFromOPF`) and the
statistical identifier as parameters. -/
def computeShouldTranslate (translateOpt : Bool) (metaLang : Option String)
    (files : List Entry) (identify : String → String) : Bool :=
  if metaLangIsSpanish metaLang then false
  else
    match detectLanguageFromContent files identify with
    | some l => if l = "spa" then false else translateOpt
    | none => translateOpt

/-- The guard at line 1416: the whole-book translation step runs only when
`shouldTranslate` holds and a translation engine is configured (truthy). -/
def translationStepRuns (shouldTranslate : Bool) (engine : Option String) : Bool :=
  shouldTranslate &&
    (match engine with
     | some e => !(e = "")
     | none => false)

/-! ## One-shot state cleanup after a job (src/unnamed/part_001)

In `processUserQueue`, after `sendProcessedFile` succeeds the profile's
single-use replacements, custom CSS and metadata override are reset
(lines 848-855); when the pipeline throws, the `catch` branch only calls
`handleError` (lines 857-859) and no field is touched. -/

structure OneShotState where
  singleUseReplacements : List Rule
  customCss : String
  metadata : Option (Option String × Option String)
deriving DecidableEq

/-- State of the profile's one-shot fields after one dequeued job finishes
with the given outcome. -/
def completeJob (p : OneShotState) (success : Bool) : OneShotState :=
  if success then
    { singleUseReplacements := []
      customCss := if !(p.customCss = "") then "" else p.customCss
      metadata :=
        match p.metadata with
        | some _ => some (none, none)
        | none => none }
  else p

/-! ## Awaiting-input modes (src/unnamed/part_001)

The profile stores one independent boolean per "awaiting textual input"
mode.  Each command handler sets its own flag and leaves the others
untouched: `/reemplazar` (line 417), `/metadata` (lines 449-450), `/css`
(line 467), the dictionary edit/create buttons (lines 311, 326) and
`/diccionario crear` (line 529).  The final text-message listener
(lines 1034-1090) consumes at most one mode per message, checked in the
order replacements, metadata, dictionary rules; `/fin` (lines 602-620)
ends dictionary editing. -/

structure UserFlags where
  isWaitingForReplacements : Bool
  isWaitingForMetadata : Bool
  isWaitingForCss : Bool
  isWaitingForDictionaryRules : Bool
  isWaitingForNewDictionaryName : Bool
  metadataTitle : Option String
deriving DecidableEq

def initFlags : UserFlags :=
  { isWaitingForReplacements := false
    isWaitingForMetadata := false
    isWaitingForCss := false
    isWaitingForDictionaryRules := false
    isWaitingForNewDictionaryName := false
    metadataTitle := none }

def cmdReemplazar (s : UserFlags) : UserFlags :=
  { s with isWaitingForReplacements := true }

def cmdMetadata (s : UserFlags) : UserFlags :=
  { s with isWaitingForMetadata := true, metadataTitle := none }

def cmdCss (s : UserFlags) : UserFlags :=
  { s with isWaitingForCss := true }

def cmdDictEdit (s : UserFlags) : UserFlags :=
  { s with isWaitingForDictionaryRules := true }

def cmdDictCreate (s : UserFlags) : UserFlags :=
  { s with isWaitingForNewDictionaryName := true }

def cmdFin (s : UserFlags) : UserFlags :=
  if s.isWaitingForDictionaryRules then { s with isWaitingForDictionaryRules := false } else s

/-- The plain-text listener: it handles the first active mode in its fixed
order.  A replacements message stores the rules and clears that flag; the
first metadata message stores the title, the second stores the author and
clears the metadata flag; dictionary-rule messages keep the flag set. -/
def cmdText (txt : String) (s : UserFlags) : UserFlags :=
  if s.isWaitingForReplacements then { s with isWaitingForReplacements := false }
  else if s.isWaitingForMetadata then
    match s.metadataTitle with
    | none => { s with metadataTitle := some txt }
    | some _ => { s with isWaitingForMetadata := false }
  else s

/-- Profile states reachable through the mode-touching handlers. -/
inductive FlagsReachable : UserFlags → Prop where
  | init : FlagsReachable initFlags
  | reemplazar {s} : FlagsReachable s → FlagsReachable (cmdReemplazar s)
  | metadata {s} : FlagsReachable s → FlagsReachable (cmdMetadata s)
  | css {s} : FlagsReachable s → FlagsReachable (cmdCss s)
  | dictEdit {s} : FlagsReachable s → FlagsReachable (cmdDictEdit s)
  | dictCreate {s} : FlagsReachable s → FlagsReachable (cmdDictCreate s)
  | fin {s} : FlagsReachable s → FlagsReachable (cmdFin s)
  | textMsg {s} (txt : String) : FlagsReachable s → FlagsReachable (cmdText txt s)

/-! ## Per-user job queue (src/unnamed/part_001)

`addJobToQueue` (lines 665-697) appends the job to the user's queue and
invokes `processUserQueue`.  `processUserQueue` (lines 765-865) returns
at once when `userProcessingStatus[chatId]` is set; otherwise it sets the
flag and drains: pop the head, run the pipeline to completion, repeat;
when the queue is empty the flag is reset.  The check-and-set of the flag
is synchronous (no await between them), so it is one transition here;
every other await point lets arbitrary other events interleave. -/

/-- Program counter of one drain-loop instance: about to test the loop
condition, or running a popped job. -/
inductive DrainerPC where
  | check : DrainerPC
  | running : Nat → DrainerPC
deriving DecidableEq

/-- One user's queue state, with history variables: `enqueued` records
every pushed job in arrival order, `started` every popped job in
execution-start order. -/
structure UserQ where
  queue : List Nat
  flag : Bool
  drainers : List DrainerPC
  enqueued : List Nat
  started : List Nat
deriving DecidableEq

def UserQ.init : UserQ :=
  { queue := [], flag := false, drainers := [], enqueued := [], started := [] }

/-- Small-step transitions of one user's queue. -/
inductive UStep : UserQ → UserQ → Prop where
  | push (j : Nat) (q : List Nat) (f : Bool) (ds : List DrainerPC) (e st : List Nat) :
      UStep ⟨q, f, ds, e, st⟩ ⟨q ++ [j], f, ds, e ++ [j], st⟩
  | spawn (q : List Nat) (ds : List DrainerPC) (e st : List Nat) :
      UStep ⟨q, false, ds, e, st⟩ ⟨q, true, ds ++ [DrainerPC.check], e, st⟩
  | start (j : Nat) (q : List Nat) (f : Bool) (l1 l2 : List DrainerPC) (e st : List Nat) :
      UStep ⟨j :: q, f, l1 ++ DrainerPC.check :: l2, e, st⟩
            ⟨q, f, l1 ++ DrainerPC.running j :: l2, e, st ++ [j]⟩
  | finish (j : Nat) (q : List Nat) (f : Bool) (l1 l2 : List DrainerPC) (e st : List Nat) :
      UStep ⟨q, f, l1 ++ DrainerPC.running j :: l2, e, st⟩
            ⟨q, f, l1 ++ DrainerPC.check :: l2, e, st⟩
  | exitLoop (f : Bool) (l1 l2 : List DrainerPC) (e st : List Nat) :
      UStep ⟨[], f, l1 ++ DrainerPC.check :: l2, e, st⟩
            ⟨[], false, l1 ++ l2, e, st⟩

/-- The full system: one queue state per user identity. -/
def Sys : Type := Nat → UserQ

def updateSys (s : Sys) (u : Nat) (t : UserQ) : Sys :=
  fun v => if v = u then t else s v

def sysInit : Sys := fun _ => UserQ.init

/-- A system step is a step of one user's queue; other users untouched. -/
inductive SysStep : Sys → Sys → Prop where
  | step {s : Sys} {t : UserQ} (u : Nat) (h : UStep (s u) t) :
      SysStep s (updateSys s u t)

def SysReachable : Sys → Prop :=
  Relation.ReflTransGen SysStep sysInit

/-- How many jobs of this user are executing right now. -/
def runningCount (ds : List DrainerPC) : Nat :=
  (ds.filter (fun d => match d with | DrainerPC.running _ => true | _ => false)).length

/-- The per-user invariant: at most one drain loop exists, no drain loop
survives a cleared flag, and the execution history plus the pending queue
is exactly the arrival history. -/
def UserQ.inv (x : UserQ) : Prop :=
  x.drainers.length ≤ 1 ∧ (x.flag = false → x.drainers = []) ∧
    x.started ++ x.queue = x.enqueued

/-! ## Concrete fixtures used by the theorems below. -/

/-- Text options whose single-use rule has a replacement containing the
GetSubstitution sequence for the matched text. -/
def dollarRuleOptions : TextOptions :=
  { removeGoogle := false, fixPunctuation := false, fixSpacing := false,
    singleUseReplacements := [{ original := "a", replacement := "$&b" }],
    userDictionaries := [], activeDictionaries := [] }

/-- Text options enabling only the punctuation fix. -/
def punctOnlyOptions : TextOptions :=
  { removeGoogle := false, fixPunctuation := true, fixSpacing := false,
    singleUseReplacements := [], userDictionaries := [], activeDictionaries := [] }

/-- The spec's punctuation example text node value. -/
def exPunctInput : String := "He said \"hi.\""

/-- Job options with every transform disabled and no rules. -/
def noTransformOptions : JobOptions :=
  { removeImages := false, removeStyles := false, removeEmptyP := false,
    removeHyperlinks := false, removeFootnotes := false, removeGoogle := false,
    fixPunctuation := false, fixSpacing := false, singleUseReplacements := [],
    userDictionaries := [], activeDictionaries := [] }

/-- A tiny parser for witnesses: the content "bad" fails to parse, any
other content parses to a one-text-node document. -/
def witnessParse (s : String) : Option XNode :=
  if s = "bad" then none else some (XNode.elem "html" [] [XNode.text s])

/-! # Theorems

First general-purpose lemmas about the embedded operations, then one
theorem per claim (with witnesses and counterexamples where required). -/

/-- The empty pattern is a substring of everything. -/
theorem hasSubstr_nil (s : List Char) : hasSubstr [] s = true := by
  cases s with
  | nil => rfl
  | cons c cs => simp [hasSubstr, List.isPrefixOf]

/-- When the pattern does not occur, the literal scan leaves the text alone. -/
theorem replaceAllAux_of_not_hasSubstr (pat rep orig : List Char) :
    ∀ (fuel pos : Nat) (s : List Char), hasSubstr pat s = false →
      replaceAllAux pat rep orig fuel pos s = s := by
  intro fuel
  induction fuel with
  | zero =>
    intro pos s _
    cases s with
    | nil => rw [replaceAllAux]
    | cons c cs => rw [replaceAllAux]; simp
  | succ fuel ih =>
    intro pos s h
    cases s with
    | nil => rw [replaceAllAux]
    | cons c cs =>
      rw [hasSubstr, Bool.or_eq_false_iff] at h
      rw [replaceAllAux, if_neg, ih (pos + 1) cs h.2]
      intro hc
      rw [h.1] at hc
      exact absurd hc.2 (by decide)

/-- JavaScript `replaceAll` is the identity when the pattern is absent. -/
theorem jsReplaceAll_of_not_includes (s pat rep : String)
    (h : jsIncludes s pat = false) : jsReplaceAll s pat rep = s := by
  have hne : pat.data ≠ [] := by
    intro he
    rw [jsIncludes, he, hasSubstr_nil] at h
    exact absurd h (by decide)
  rw [jsReplaceAll, if_neg hne,
    replaceAllAux_of_not_hasSubstr pat.data rep.data s.data s.data.length 0 s.data h]

/-- An includes-guarded `replaceAll` equals unconditional `replaceAll`. -/
theorem includes_guard_replaceAll (s w rep : String) :
    (if jsIncludes s w then jsReplaceAll s w rep else s) = jsReplaceAll s w rep := by
  by_cases h : jsIncludes s w = true
  · rw [if_pos h]
  · simp only [Bool.not_eq_true] at h
    rw [if_neg (by simp [h]), jsReplaceAll_of_not_includes s w rep h]

/-- Unfolding of the dictionary-collection fold: the collected rules are
the accumulator followed by the rules of each listed dictionary that
exists, in list order. -/
theorem foldl_dict_append (uds : List (String × List Rule)) :
    ∀ (ds : List String) (acc : List Rule),
      ds.foldl
        (fun acc d =>
          match uds.find? (fun p => p.1 = d) with
          | some p => acc ++ p.2
          | none => acc)
        acc =
      acc ++ (ds.filterMap (fun d => (uds.find? (fun p => p.1 = d)).map (fun p => p.2))).flatten := by
  intro ds
  induction ds with
  | nil => intro acc; simp
  | cons d ds ih =>
    intro acc
    rw [List.foldl_cons, List.filterMap_cons]
    cases hf : uds.find? (fun p => p.1 = d) with
    | none => simp only [hf]; exact ih acc
    | some p =>
      simp only [hf]
      rw [ih (acc ++ p.2)]
      simp only [Option.map_some', List.flatten_cons, List.append_assoc]

/-- The collected rule list is the single-use rules followed by the rules
of the active dictionaries, in order. -/
theorem allReplacements_eq (o : TextOptions) :
    allReplacements o =
      o.singleUseReplacements ++
        (o.activeDictionaries.filterMap
          (fun d => (o.userDictionaries.find? (fun p => p.1 = d)).map (fun p => p.2))).flatten :=
  foldl_dict_append o.userDictionaries o.activeDictionaries o.singleUseReplacements

mutual

theorem textValues_rewriteNode (o : TextOptions) :
    (n : XNode) →
      textValuesNode (rewriteNode o n) =
        (textValuesNode n).map (fun s => if s = "" then s else rewriteText o s)
  | XNode.text s => by
    by_cases hs : s = ""
    · subst hs; simp [rewriteNode, textValuesNode]
    · simp [rewriteNode, textValuesNode, hs]
  | XNode.elem t a cs => by
    simp only [rewriteNode, textValuesNode]
    exact textValues_rewriteList o cs

theorem textValues_rewriteList (o : TextOptions) :
    (l : List XNode) →
      textValuesList (rewriteList o l) =
        (textValuesList l).map (fun s => if s = "" then s else rewriteText o s)
  | [] => by simp [rewriteList, textValuesList]
  | n :: ns => by
    simp only [rewriteList, textValuesList, List.map_append]
    rw [textValues_rewriteNode o n, textValues_rewriteList o ns]

end

mutual

theorem hasImage_stripImagesNode :
    (n : XNode) → ∀ m, stripImagesNode n = some m → hasImageNode m = false
  | XNode.text s => by
    intro m hm
    rw [stripImagesNode] at hm
    cases hm
    rfl
  | XNode.elem t a cs => by
    intro m hm
    rw [stripImagesNode] at hm
    by_cases ht : isImageTag t = true
    · rw [if_pos ht] at hm; cases hm
    · rw [if_neg ht] at hm
      cases hm
      rw [hasImageNode, hasImage_stripImagesList cs]
      simp only [Bool.not_eq_true] at ht
      rw [ht]
      rfl

theorem hasImage_stripImagesList :
    (l : List XNode) → hasImageList (stripImagesList l) = false
  | [] => by rw [stripImagesList, hasImageList]
  | n :: ns => by
    rw [stripImagesList]
    cases hn : stripImagesNode n with
    | none => exact hasImage_stripImagesList ns
    | some m =>
      rw [hasImageList, hasImage_stripImagesNode n m hn, hasImage_stripImagesList ns]
      rfl

end

/-! ## Claim theorems -/

/-- C1 (corrected): after a dequeued job finishes, the one-shot state is
cleared only on success.  A successful completion empties the single-use
rule list, blanks the custom style block and empties the metadata
override; a failed completion leaves every one-shot field untouched. -/
theorem processUserQueue_clears_oneshot_only_on_success (p : OneShotState) :
    completeJob p true =
      { singleUseReplacements := []
        customCss := ""
        metadata := p.metadata.map (fun _ => ((none : Option String), (none : Option String))) } ∧
    completeJob p false = p := by
  constructor
  · cases hm : p.metadata <;> by_cases hc : p.customCss = "" <;>
      simp [completeJob, hm, hc]
  · simp [completeJob]

/-- C1 counterexample: for a failing job with a pending single-use rule,
the rule list is not empty after the job completes, contradicting the
claim that one-shot state is cleared whether the job succeeds or fails. -/
theorem processUserQueue_failure_keeps_oneshot_cx :
    (completeJob
        { singleUseReplacements := [{ original := "Capitulo", replacement := "Capítulo" }]
          customCss := ""
          metadata := none }
        false).singleUseReplacements ≠ [] := by
  simp [completeJob]

/-- C2 (corrected, for the cleaners.js rewriter used by the pipeline):
the collected rule list is the single-use rules followed by the rules of
every active dictionary in order, and every text node value is rewritten
to the fold of `replaceAll` of those rules (after the watermark,
punctuation and spacing stages): each rule's original is matched as a
literal substring (never as a pattern), all occurrences, case-sensitive;
the replacement string, however, is not fully literal — it undergoes
JavaScript GetSubstitution, as the last conjunct exhibits: the rule
replacing "a" by "$&b" rewrites "a" to "ab", not to "$&b". -/
theorem cleanTextNodes_rules_literal_inorder :
    (∀ o : TextOptions,
      allReplacements o =
        o.singleUseReplacements ++
          (o.activeDictionaries.filterMap
            (fun d => (o.userDictionaries.find? (fun p => p.1 = d)).map (fun p => p.2))).flatten) ∧
    (∀ (o : TextOptions) (r : XNode),
      textValuesNode (rewriteNode o r) =
        (textValuesNode r).map
          (fun s =>
            if s = "" then s
            else
              (allReplacements o).foldl
                (fun acc rule => jsReplaceAll acc rule.original rule.replacement)
                (preRuleStages o s))) ∧
    rewriteText dollarRuleOptions "a" = "ab" := by
  refine ⟨allReplacements_eq, ?_, by decide⟩
  intro o r
  exact textValues_rewriteNode o r

/-- C2 counterexample: the claim fails in both rewriters.  The legacy
bot.js rewriter cited by the claim compiles each rule as a regex pattern,
so the rule `. -> X` rewrites "ab" to "XX", while a literal-substring
match leaves "ab" unchanged; and in the cleaners.js rule stage the
replacement side is not literal either — the rule replacing "a" by "$&b"
rewrites "a" to "ab", not to the literal replacement text "$&b". -/
theorem botJs_rules_are_patterns_cx :
    (rewriteTextBot
        { removeGoogle := false, fixPunctuation := false, fixSpacing := false,
          singleUseReplacements := [{ original := ".", replacement := "X" }] }
        "ab" = "XX" ∧
     ([({ original := ".", replacement := "X" } : Rule)]).foldl
        (fun acc rule => jsReplaceAll acc rule.original rule.replacement) "ab" = "ab" ∧
     ("XX" : String) ≠ "ab") ∧
    (applyRules [({ original := "a", replacement := "$&b" } : Rule)] "a" = "ab" ∧
     ("ab" : String) ≠ "$&b") := by
  refine ⟨⟨by decide, by decide, by decide⟩, by decide, by decide⟩

/-- C6 (confirmed): the empty-paragraph pruner removes a paragraph iff its
trimmed text content is empty and it has no element child; in particular
a `p` whose text is two spaces with no element child is removed, and one
with the same text plus one child element is kept unchanged. -/
theorem cleanEmptyParagraphs_removes_iff :
    (∀ n : XNode, prunePNode n = none ↔ isRemovableP n = true) ∧
    cleanEmptyParagraphs (some (XNode.elem "p" [] [XNode.text "  "])) = (none, true) ∧
    cleanEmptyParagraphs
        (some (XNode.elem "p" [] [XNode.text "  ", XNode.elem "span" [] []])) =
      (some (XNode.elem "p" [] [XNode.text "  ", XNode.elem "span" [] []]), false) := by
  refine ⟨?_, by rfl, by rfl⟩
  intro n
  cases n with
  | text s =>
    rw [prunePNode, isRemovableP]
    simp
  | elem t a cs =>
    rw [prunePNode]
    by_cases h : isRemovableP (XNode.elem t a cs) = true
    · rw [if_pos h]; simp [h]
    · rw [if_neg h]
      simp only [Bool.not_eq_true] at h
      simp [h]

/-- C7 (corrected): with punctuation fix enabled the rewriter first turns
every period-plus-closing-double-quote into " —" (space plus em dash) and
then turns every remaining quote character into an em dash; the example
text node value rewrites to "He said —hi —", which ends with "hi —": the
final em dash follows "hi" with the transform's inserted space before it. -/
theorem cleanTextNodes_punctuation_stage (o : TextOptions) (s : String)
    (h : o.fixPunctuation = true) :
    preRuleStages o s =
      (let s1 := if o.removeGoogle then watermarkStage s else s
       let s2 := replaceQuotes (replacePeriodQuote s1)
       if o.fixSpacing && jsIncludes s2 "  " then collapseSpaces s2 else s2) ∧
    rewriteText punctOnlyOptions exPunctInput = "He said —hi —" ∧
    jsEndsWith (rewriteText punctOnlyOptions exPunctInput) "hi —" = true := by
  refine ⟨?_, by decide, by decide⟩
  rw [preRuleStages]
  rw [h]
  rfl

/-- C7 witness. -/
theorem cleanTextNodes_punctuation_stage_witness :
    punctOnlyOptions.fixPunctuation = true ∧
    rewriteText punctOnlyOptions exPunctInput = "He said —hi —" :=
  ⟨rfl, (cleanTextNodes_punctuation_stage punctOnlyOptions "x" rfl).2.1⟩

/-- C7 counterexample: the rewritten example is "He said —hi —"; the em
dash is not immediately after "hi" (the substring "hi—" does not occur),
a space stands in between. -/
theorem cleanTextNodes_punctuation_example_cx :
    rewriteText punctOnlyOptions exPunctInput = "He said —hi —" ∧
    jsIncludes (rewriteText punctOnlyOptions exPunctInput) "hi—" = false := by
  refine ⟨by decide, by decide⟩

/-- C8 (confirmed): the image stripper is idempotent — a second run on the
result of a first run changes nothing and reports `false` — and on a
document with no image elements it reports `false` and leaves the
document unchanged. -/
theorem cleanImages_idempotent_noop :
    (∀ d : Doc, cleanImages (cleanImages d).1 = ((cleanImages d).1, false)) ∧
    (∀ d : Doc, docHasImage d = false → cleanImages d = (d, false)) := by
  constructor
  · intro d
    cases d with
    | none => rfl
    | some r =>
      rw [cleanImages]
      by_cases hr : hasImageNode r = true
      · rw [if_pos hr]
        cases hm : stripImagesNode r with
        | none => rfl
        | some m =>
          have hmi := hasImage_stripImagesNode r m hm
          rw [cleanImages, if_neg]
          rw [hmi]
          simp
      · rw [if_neg hr]
        simp only [Bool.not_eq_true] at hr
        rw [cleanImages, hr]
        rfl
  · intro d hd
    cases d with
    | none => rfl
    | some r =>
      rw [docHasImage] at hd
      rw [cleanImages, hd]
      rfl

/-- C8 witness. -/
theorem cleanImages_idempotent_noop_witness :
    docHasImage (some (XNode.elem "p" [] [XNode.text "hola"])) = false ∧
    cleanImages (some (XNode.elem "p" [] [XNode.text "hola"])) =
      (some (XNode.elem "p" [] [XNode.text "hola"]), false) :=
  ⟨rfl, cleanImages_idempotent_noop.2 (some (XNode.elem "p" [] [XNode.text "hola"])) rfl⟩

/-- C9 (corrected): the awaiting-input modes are independent boolean
flags; issuing `/reemplazar` then `/metadata` leaves both modes active at
once, and each mode-entering handler leaves every other mode flag
untouched. -/
theorem awaiting_modes_independent_amended (s : UserFlags) :
    ((cmdMetadata (cmdReemplazar s)).isWaitingForReplacements = true ∧
     (cmdMetadata (cmdReemplazar s)).isWaitingForMetadata = true) ∧
    ((cmdReemplazar s).isWaitingForMetadata = s.isWaitingForMetadata ∧
     (cmdReemplazar s).isWaitingForCss = s.isWaitingForCss ∧
     (cmdReemplazar s).isWaitingForDictionaryRules = s.isWaitingForDictionaryRules ∧
     (cmdReemplazar s).isWaitingForNewDictionaryName = s.isWaitingForNewDictionaryName ∧
     (cmdMetadata s).isWaitingForReplacements = s.isWaitingForReplacements ∧
     (cmdMetadata s).isWaitingForCss = s.isWaitingForCss ∧
     (cmdMetadata s).isWaitingForDictionaryRules = s.isWaitingForDictionaryRules ∧
     (cmdCss s).isWaitingForReplacements = s.isWaitingForReplacements ∧
     (cmdCss s).isWaitingForMetadata = s.isWaitingForMetadata ∧
     (cmdDictEdit s).isWaitingForReplacements = s.isWaitingForReplacements ∧
     (cmdDictEdit s).isWaitingForMetadata = s.isWaitingForMetadata ∧
     (cmdDictCreate s).isWaitingForCss = s.isWaitingForCss) := by
  exact ⟨⟨rfl, rfl⟩, rfl, rfl, rfl, rfl, rfl, rfl, rfl, rfl, rfl, rfl, rfl, rfl⟩

/-- C9 counterexample: the state reached by `/reemplazar` followed by
`/metadata` from a fresh profile has two awaiting modes active at the
same moment, contradicting the claimed mutual exclusion. -/
theorem awaiting_modes_mutex_cx :
    FlagsReachable (cmdMetadata (cmdReemplazar initFlags)) ∧
    (cmdMetadata (cmdReemplazar initFlags)).isWaitingForReplacements = true ∧
    (cmdMetadata (cmdReemplazar initFlags)).isWaitingForMetadata = true :=
  ⟨FlagsReachable.metadata (FlagsReachable.reemplazar FlagsReachable.init), rfl, rfl⟩

/-- C10 (confirmed): the configured watermark set is exactly the two
phrases "Machine Translated by Google" and "OceanoPDF.com"; the watermark
step removes all occurrences of the first and then all occurrences of the
second, and leaves a text containing neither untouched. -/
theorem cleanTextNodes_watermark_set (s : String) :
    watermarks = ["Machine Translated by Google", "OceanoPDF.com"] ∧
    watermarkStage s =
      jsReplaceAll (jsReplaceAll s "Machine Translated by Google" "") "OceanoPDF.com" "" ∧
    (jsIncludes s "Machine Translated by Google" = false →
      jsIncludes s "OceanoPDF.com" = false → watermarkStage s = s) := by
  refine ⟨rfl, ?_, ?_⟩
  · rw [watermarkStage, watermarks]
    simp only [List.foldl_cons, List.foldl_nil]
    rw [includes_guard_replaceAll, includes_guard_replaceAll]
  · intro h1 h2
    rw [watermarkStage, watermarks]
    simp only [List.foldl_cons, List.foldl_nil]
    simp [h1, h2]

/-- C10 witness. -/
theorem cleanTextNodes_watermark_set_witness :
    jsIncludes "hola" "Machine Translated by Google" = false ∧
    jsIncludes "hola" "OceanoPDF.com" = false ∧
    watermarkStage "hola" = "hola" :=
  ⟨by decide, by decide,
   (cleanTextNodes_watermark_set "hola").2.2 (by decide) (by decide)⟩

/-- C5 (confirmed): translation proceeds only if the user's translate
option is set and the classifier decides it is needed: the decision is
true iff the option is set, the declared metadata language does not
denote Spanish, and statistical identification of the content sample does
not return Spanish ("spa"); when metadata denotes Spanish the decision is
false immediately, independent of the sample; and the sample is built
from at most 5 markup entries. -/
theorem translation_decision_spec (tr : Bool) (metaLang : Option String)
    (files : List Entry) (identify : String → String) (engine : Option String) :
    (computeShouldTranslate tr metaLang files identify = true ↔
      (tr = true ∧ metaLangIsSpanish metaLang = false ∧
        detectLanguageFromContent files identify ≠ some "spa")) ∧
    (translationStepRuns (computeShouldTranslate tr metaLang files identify) engine = true →
      tr = true ∧ metaLangIsSpanish metaLang = false ∧
        detectLanguageFromContent files identify ≠ some "spa") ∧
    buildSample files = buildSample ((files.filter (fun e => isHtmlName e.name)).take 5) := by
  have hiff : computeShouldTranslate tr metaLang files identify = true ↔
      (tr = true ∧ metaLangIsSpanish metaLang = false ∧
        detectLanguageFromContent files identify ≠ some "spa") := by
    rw [computeShouldTranslate]
    by_cases hm : metaLangIsSpanish metaLang = true
    · rw [if_pos hm]
      simp [hm]
    · simp only [Bool.not_eq_true] at hm
      rw [if_neg (by simp [hm])]
      cases hd : detectLanguageFromContent files identify with
      | none => simp [hm]
      | some l =>
        by_cases hl : l = "spa"
        · subst hl
          simp [hm]
        · simp [hm, hl]
  refine ⟨hiff, ?_, ?_⟩
  · intro h
    rw [translationStepRuns.eq_def, Bool.and_eq_true] at h
    exact hiff.mp h.1
  · rw [buildSample, buildSample]
    have hsub : ((files.filter (fun e => isHtmlName e.name)).take 5).filter
        (fun e => isHtmlName e.name) = (files.filter (fun e => isHtmlName e.name)).take 5 := by
      apply List.filter_eq_self.mpr
      intro a ha
      exact (List.mem_filter.mp
        (List.take_subset 5 (files.filter (fun e => isHtmlName e.name)) ha)).2
    rw [hsub, List.take_take]
    simp

/-- C5 witness. -/
theorem translation_decision_spec_witness :
    translationStepRuns
        (computeShouldTranslate true none [{ name := "a.html", content := "hola mundo" }]
          (fun _ => "eng"))
        (some "google") = true ∧
    (true = true ∧ metaLangIsSpanish none = false ∧
      detectLanguageFromContent [{ name := "a.html", content := "hola mundo" }]
        (fun _ => "eng") ≠ some "spa") :=
  ⟨by decide,
   (translation_decision_spec true none [{ name := "a.html", content := "hola mundo" }]
      (fun _ => "eng") (some "google")).2.1 (by decide)⟩

/-- C4 (confirmed): when exactly one markup entry among those processed
fails to parse, the markup phase completes successfully, every other
entry is still processed independently (the failing entry changes nothing
about them), the failing entry itself is left untouched, and the warning
list names exactly the one failed entry. -/
theorem processEpubBuffer_parse_failure_isolated
    (parse : String → Option XNode) (o : JobOptions) (pre post : List Entry) (e0 : Entry)
    (hpre : ∀ e ∈ pre, (parse e.content).isSome = true)
    (hpost : ∀ e ∈ post, (parse e.content).isSome = true)
    (h0 : parse e0.content = none) :
    processEpubTextPhase parse o (pre ++ e0 :: post) =
      Except.ok
        (pre.map (fun e => (processTextEntry parse o e).1) ++
           e0 :: post.map (fun e => (processTextEntry parse o e).1),
         [e0.name]) ∧
    (∀ e ∈ pre ++ post, (processTextEntry parse o e).2 = none) := by
  have hsnd : ∀ e : Entry, (parse e.content).isSome = true →
      (processTextEntry parse o e).2 = none := by
    intro e he
    cases hp : parse e.content with
    | none => rw [hp] at he; simp at he
    | some root => simp [processTextEntry, hp]
  have hfail1 : (processTextEntry parse o e0).1 = e0 := by
    simp [processTextEntry, h0]
  have hfail2 : (processTextEntry parse o e0).2 = some e0.name := by
    simp [processTextEntry, h0]
  constructor
  · rw [processEpubTextPhase, processTextEntries]
    have hmap : (pre ++ e0 :: post).map (fun e => (processTextEntry parse o e).1) =
        pre.map (fun e => (processTextEntry parse o e).1) ++
          e0 :: post.map (fun e => (processTextEntry parse o e).1) := by
      rw [List.map_append, List.map_cons, hfail1]
    have hpre0 : pre.filterMap (fun e => (processTextEntry parse o e).2) = [] := by
      rw [List.filterMap_eq_nil_iff]
      intro e he
      exact hsnd e (hpre e he)
    have hpost0 : post.filterMap (fun e => (processTextEntry parse o e).2) = [] := by
      rw [List.filterMap_eq_nil_iff]
      intro e he
      exact hsnd e (hpost e he)
    have hfm : (pre ++ e0 :: post).filterMap (fun e => (processTextEntry parse o e).2) =
        [e0.name] := by
      rw [List.filterMap_append, List.filterMap_cons, hpre0, hpost0, hfail2]
      rfl
    rw [hmap, hfm]
  · intro e he
    rcases List.mem_append.mp he with h | h
    · exact hsnd e (hpre e h)
    · exact hsnd e (hpost e h)

/-- C4 witness. -/
theorem processEpubBuffer_parse_failure_isolated_witness :
    (processEpubTextPhase witnessParse noTransformOptions
        ([{ name := "a.xhtml", content := "x" }] ++
          { name := "b.xhtml", content := "bad" } :: [{ name := "c.xhtml", content := "y" }]) =
      Except.ok
        (([{ name := "a.xhtml", content := "x" }] : List Entry).map
            (fun e => (processTextEntry witnessParse noTransformOptions e).1) ++
           { name := "b.xhtml", content := "bad" } ::
             ([{ name := "c.xhtml", content := "y" }] : List Entry).map
               (fun e => (processTextEntry witnessParse noTransformOptions e).1),
         ["b.xhtml"])) ∧
    (∀ e ∈ ([{ name := "a.xhtml", content := "x" }] : List Entry) ++
        [{ name := "c.xhtml", content := "y" }],
      (processTextEntry witnessParse noTransformOptions e).2 = none) :=
  processEpubBuffer_parse_failure_isolated witnessParse noTransformOptions
    [{ name := "a.xhtml", content := "x" }] [{ name := "c.xhtml", content := "y" }]
    { name := "b.xhtml", content := "bad" }
    (by intro e he; fin_cases he <;> rfl)
    (by intro e he; fin_cases he <;> rfl)
    rfl

/-- The running count never exceeds the number of drain-loop instances. -/
theorem runningCount_le (ds : List DrainerPC) : runningCount ds ≤ ds.length := by
  rw [runningCount]
  exact List.length_filter_le _ _

/-- Every single-user transition preserves the queue invariant. -/
theorem ustep_inv {x y : UserQ} (h : UStep x y) (hx : x.inv) : y.inv := by
  cases h with
  | push j q f ds e st =>
    obtain ⟨h1, h2, h3⟩ := hx
    refine ⟨h1, h2, ?_⟩
    show st ++ (q ++ [j]) = e ++ [j]
    rw [← List.append_assoc]
    rw [show st ++ q = e from h3]
  | spawn q ds e st =>
    obtain ⟨h1, h2, h3⟩ := hx
    have hds : ds = [] := h2 rfl
    subst hds
    exact ⟨by simp, fun hf => absurd hf (by simp), h3⟩
  | start j q f l1 l2 e st =>
    obtain ⟨h1, h2, h3⟩ := hx
    refine ⟨?_, ?_, ?_⟩
    · simpa using h1
    · intro hf
      exact absurd (h2 hf) (by simp)
    · show (st ++ [j]) ++ q = e
      rw [List.append_assoc]
      simpa using h3
  | finish j q f l1 l2 e st =>
    obtain ⟨h1, h2, h3⟩ := hx
    refine ⟨by simpa using h1, ?_, h3⟩
    intro hf
    exact absurd (h2 hf) (by simp)
  | exitLoop f l1 l2 e st =>
    obtain ⟨h1, h2, h3⟩ := hx
    have hl : l1 = [] ∧ l2 = [] := by
      constructor <;> (apply List.eq_nil_of_length_eq_zero; simp at h1; omega)
    obtain ⟨hl1, hl2⟩ := hl
    subst hl1
    subst hl2
    exact ⟨by simp, fun _ => rfl, h3⟩

/-- Every system step preserves the invariant for every user. -/
theorem sysstep_inv {s t : Sys} (h : SysStep s t) (hs : ∀ u, (s u).inv) :
    ∀ u, (t u).inv := by
  cases h with
  | step u hu =>
    intro v
    rw [updateSys]
    by_cases hv : v = u
    · subst hv
      rw [if_pos rfl]
      exact ustep_inv hu (hs v)
    · rw [if_neg hv]
      exact hs v

/-- The invariant holds in every reachable system state. -/
theorem sysReachable_inv {s : Sys} (h : SysReachable s) : ∀ u, (s u).inv := by
  have h' : Relation.ReflTransGen SysStep sysInit s := h
  clear h
  induction h' with
  | refl => exact fun u => ⟨by simp [sysInit, UserQ.init], fun _ => rfl, rfl⟩
  | tail _ hstep ih => exact sysstep_inv hstep ih

/-- C3 (confirmed): in every reachable state, each user has at most one
job executing (so two jobs of one user never overlap), and the list of
jobs started so far followed by the pending queue equals the arrival
history — jobs start in exactly FIFO arrival order; moreover every system
step touches only the state of the one user it belongs to, so users are
independent. -/
theorem userQueue_serial_fifo_independent :
    (∀ s : Sys, SysReachable s → ∀ u : Nat,
      runningCount (s u).drainers ≤ 1 ∧
      (s u).started ++ (s u).queue = (s u).enqueued) ∧
    (∀ s t : Sys, SysStep s t → ∃ u : Nat, ∀ v : Nat, v ≠ u → t v = s v) := by
  constructor
  · intro s hs u
    obtain ⟨h1, _, h3⟩ := sysReachable_inv hs u
    exact ⟨le_trans (runningCount_le _) h1, h3⟩
  · intro s t h
    cases h with
    | step u hu =>
      refine ⟨u, fun v hv => ?_⟩
      rw [updateSys, if_neg hv]

/-- C3 witness. -/
theorem userQueue_serial_fifo_independent_witness :
    (runningCount (sysInit 0).drainers ≤ 1 ∧
      (sysInit 0).started ++ (sysInit 0).queue = (sysInit 0).enqueued) ∧
    (∃ u : Nat, ∀ v : Nat, v ≠ u →
      updateSys sysInit 0
          { queue := [], flag := true, drainers := [DrainerPC.check],
            enqueued := [], started := [] } v =
        sysInit v) :=
  ⟨userQueue_serial_fifo_independent.1 sysInit Relation.ReflTransGen.refl 0,
   userQueue_serial_fifo_independent.2 sysInit _
     (SysStep.step 0 (UStep.spawn [] [] [] []))⟩

end EpubBot
